import Mathlib

/-!
Verification of the branch-inventory and safe-deletion core of the
`git-branch-delete` command-line tool against its natural-language
specification.

The Go sources are shallowly embedded:
strings become `List Char` (the sources are ASCII-oriented; the Go
standard-library string helpers used by the code are mirrored below),
subprocess execution becomes an explicit environment
`GitEnv : Cmd → RunResult` mapping an argument vector to the outcome of
running the external tool, and every embedded operation additionally
returns the list of argument vectors it actually handed to the
environment (its subprocess trace), so that claims of the form
"no deletion command is issued" are directly expressible.

The repository ships several divergent revisions of the same files
(the spec's design notes call this out); the namespaces `G1`, `G2`, `G3`
(for `internal/git/git.go`), `V1`, `V2`, `V3`
(for `internal/git/validate.go`) and `Batch` (for
`internal/git/batch.go`) below hold the revisions the claims cite,
identified by the line ranges given in the comments.
-/

/-- Go strings, embedded as lists of characters. -/
abbrev Str := List Char

/-- Go `strings.HasPrefix s pre`. -/
def hasPrefixB : Str → Str → Bool
  | _, [] => true
  | [], _ :: _ => false
  | c :: s, p :: ps => c = p && hasPrefixB s ps

/-- Go `strings.HasSuffix s suf`. -/
def hasSuffixB (s suf : Str) : Bool :=
  hasPrefixB s.reverse suf.reverse

/-- Go `strings.Contains s sub` (an empty pattern is contained in every string). -/
def containsB : Str → Str → Bool
  | s, sub =>
    if hasPrefixB s sub then true
    else
      match s with
      | [] => false
      | _ :: t => containsB t sub

/-- Go `strings.ContainsAny s chars`. -/
def containsAnyB (s : Str) (chars : List Char) : Bool :=
  s.any (fun c => chars.contains c)

/-- Go `strings.ContainsRune s c`. -/
def containsRuneB (s : Str) (c : Char) : Bool :=
  s.contains c

/-- Go `strings.TrimPrefix s pre`: drops `pre` once if it is a prefix. -/
def trimPrefixB (s pre : Str) : Str :=
  if hasPrefixB s pre then s.drop pre.length else s

/-- Go `strings.TrimLeft s cutset`: drops leading characters of the cutset. -/
def trimLeftB (s : Str) (cutset : List Char) : Str :=
  s.dropWhile (fun c => cutset.contains c)

/-- Go `strings.TrimRight s cutset`: drops trailing characters of the cutset. -/
def trimRightB (s : Str) (cutset : List Char) : Str :=
  (s.reverse.dropWhile (fun c => cutset.contains c)).reverse

/-- Go `unicode.IsSpace` restricted to the Latin-1 range (the sources only
meet ASCII input; higher code points never occur in any input considered). -/
def unicodeIsSpace (c : Char) : Bool :=
  c = ' ' || c = Char.ofNat 9 || c = Char.ofNat 10 || c = Char.ofNat 11 ||
  c = Char.ofNat 12 || c = Char.ofNat 13 || c = Char.ofNat 0x85 || c = Char.ofNat 0xA0

/-- Go `unicode.IsControl` (the Cc category: U+0000..U+001F and U+007F..U+009F). -/
def unicodeIsControl (c : Char) : Bool :=
  c.toNat < 0x20 || (0x7F ≤ c.toNat && c.toNat ≤ 0x9F)

/-- The whitespace characters of Go `unicode.IsSpace` (Latin-1 range). -/
def goWhitespaceChars : List Char :=
  [' ', Char.ofNat 9, Char.ofNat 10, Char.ofNat 11, Char.ofNat 12, Char.ofNat 13,
   Char.ofNat 0x85, Char.ofNat 0xA0]

/-- Go `strings.TrimSpace`. -/
def trimSpaceB (s : Str) : Str :=
  trimRightB (s.dropWhile unicodeIsSpace) goWhitespaceChars

/-- Go `strings.ToLower` (ASCII case folding, as in `Char.toLower`). -/
def toLowerB (s : Str) : Str :=
  s.map Char.toLower

/-- Go `strings.Split s sep` for a one-character separator. -/
def splitCharB (sep : Char) (s : Str) : List Str :=
  s.splitOn sep

/-- Helper of `fieldsB`: accumulates the current field (in reverse). -/
def fieldsAux : Str → Str → List Str
  | [], acc => if acc.isEmpty then [] else [acc.reverse]
  | c :: t, acc =>
    if unicodeIsSpace c then
      if acc.isEmpty then fieldsAux t [] else acc.reverse :: fieldsAux t []
    else
      fieldsAux t (c :: acc)

/-- Go `strings.Fields`: splits around runs of whitespace, dropping empties. -/
def fieldsB (s : Str) : List Str :=
  fieldsAux s []

/-- Splits a string at the first occurrence of a character, if any. -/
def breakAtChar (sep : Char) : Str → Option (Str × Str)
  | [] => none
  | c :: t =>
    if c = sep then some ([], t)
    else
      match breakAtChar sep t with
      | none => none
      | some (a, b) => some (c :: a, b)

/-- Go `strings.SplitN s sep n` for a one-character separator and `n ≥ 0`
(`n = 0` yields the empty list, as in Go; the last part is the unsplit rest). -/
def splitNB (sep : Char) : Nat → Str → List Str
  | 0, _ => []
  | 1, s => [s]
  | n + 2, s =>
    match breakAtChar sep s with
    | none => [s]
    | some (a, b) => a :: splitNB sep (n + 1) b

/-- Go `strings.Join parts sep` for a one-character separator. -/
def joinCharB (sep : Char) : List Str → Str
  | [] => []
  | [s] => s
  | s :: t :: r => s ++ sep :: joinCharB sep (t :: r)

/-- Core of Go `strings.ReplaceAll s pat rep` for a non-empty pattern
`p :: pt`: non-overlapping replacement, scanning left to right. The first
argument is fuel (any amount at least `s.length` yields the fixed result). -/
def replaceAllCore (p : Char) (pt rep : Str) : Nat → Str → Str
  | 0, s => s
  | _ + 1, [] => []
  | f + 1, c :: t =>
    if hasPrefixB (c :: t) (p :: pt) then rep ++ replaceAllCore p pt rep f (t.drop pt.length)
    else c :: replaceAllCore p pt rep f t

/-- Go `strings.ReplaceAll s pat rep` (the sources never call it with an
empty pattern; that case is mapped to the identity). -/
def replaceAllB (s pat rep : Str) : Str :=
  match pat with
  | [] => s
  | p :: pt => replaceAllCore p pt rep s.length s

deriving instance DecidableEq for Except

/-- Semicolon character. -/
def cSemi : Char := Char.ofNat 59

/-- Ampersand character. -/
def cAmp : Char := Char.ofNat 38

/-- Vertical-bar character. -/
def cPipe : Char := Char.ofNat 124

/-- Backtick character. -/
def cBacktick : Char := Char.ofNat 96

/-- Dollar character. -/
def cDollar : Char := Char.ofNat 36

/-- Opening-parenthesis character. -/
def cLParen : Char := Char.ofNat 40

/-- Closing-parenthesis character. -/
def cRParen : Char := Char.ofNat 41

/-- Less-than character. -/
def cLt : Char := Char.ofNat 60

/-- Greater-than character. -/
def cGt : Char := Char.ofNat 62

/-- Backslash character. -/
def cBackslash : Char := Char.ofNat 92

/-- Newline character. -/
def cNL : Char := Char.ofNat 10

/-- Carriage-return character. -/
def cCR : Char := Char.ofNat 13

/-- Horizontal-tab character. -/
def cTab : Char := Char.ofNat 9

/-- Vertical-tab character. -/
def cVT : Char := Char.ofNat 11

/-- Form-feed character. -/
def cFF : Char := Char.ofNat 12

/-- Tilde character. -/
def cTilde : Char := Char.ofNat 126

/-- Opening-brace character. -/
def cLBrace : Char := Char.ofNat 123

/-- Closing-brace character. -/
def cRBrace : Char := Char.ofNat 125

/-- Opening-bracket character. -/
def cLBracket : Char := Char.ofNat 91

/-- Closing-bracket character. -/
def cRBracket : Char := Char.ofNat 93

/-- Double-quote character. -/
def cDQuote : Char := Char.ofNat 34

/-- Single-quote character. -/
def cSQuote : Char := Char.ofNat 39

/-- ASCII letter or digit. -/
def isAlnum (c : Char) : Bool :=
  ('a' ≤ c && c ≤ 'z') || ('A' ≤ c && c ≤ 'Z') || ('0' ≤ c && c ≤ '9')

namespace V1

/-! Revision of `internal/git/validate.go` at lines 1-208. -/

/-- Character class of `validCharsRegex` (anchored; one or more of: letters,
digits, dash, slash, underscore). -/
def validChar (c : Char) : Bool :=
  isAlnum c || c = '-' || c = '/' || c = '_'

/-- `dangerousPatterns` of validate.go lines 67-71, in source order. -/
def dangerousPatterns : List Str :=
  [[cSemi], [cAmp], [cPipe], [cBacktick], [cDollar], [cLParen], [cRParen], [cLt], [cGt],
   [cBackslash], [cNL], [cCR], [cTab], [cVT], [cFF],
   ['.', '.', '/'], ['.', '.', '.', '/'], [cTilde]]

/-- `invalidSequences` of validate.go line 80. -/
def invalidSequences : List Str :=
  [['.', '.'], ['/', '/'], ['@', cLBrace], ['.', 'l', 'o', 'c', 'k', '/']]

/-- `allowedGitArgs` of validate.go lines 26-64. -/
def allowedGitArgs : List Str :=
  ["branch".toList, "push".toList, "pull".toList, "fetch".toList, "checkout".toList,
   "rev-parse".toList, "show-ref".toList, "ls-remote".toList, "for-each-ref".toList,
   "gc".toList, "prune".toList, "pack-refs".toList,
   "-c".toList, "-d".toList, "-D".toList, "--delete".toList, "--merged".toList,
   "--format".toList, "--verify".toList, "--quiet".toList, "--all".toList,
   "--prune".toList, "--auto".toList, "-r".toList, "--heads".toList,
   "--abbrev-ref".toList, "--no-contains".toList, "--contains".toList, "--sort".toList,
   "--points-at".toList, "--porcelain".toList, "--progress".toList,
   "HEAD".toList, "origin".toList]

/-- Rejection reasons of this revision's `ValidateBranchName` and
`ValidateGitArg`, one constructor per `return fmt.Errorf` site. -/
inductive VErr
  | empty
  | tooLong
  | dangerous (p : Str)
  | startDot
  | doubleDot
  | endSlash
  | endLock
  | badChars
  | unsupportedFlag (a : Str)
deriving DecidableEq

/-- `ValidateBranchName` of validate.go lines 142-176 (Go `len` is a byte
count; all names considered are ASCII, where it equals the character count). -/
def ValidateBranchName (name : Str) : Except VErr Unit :=
  if name.length = 0 then .error .empty
  else if name.length > 255 then .error .tooLong
  else
    match dangerousPatterns.find? (fun p => containsB name p) with
    | some p => .error (.dangerous p)
    | none =>
      if hasPrefixB name ['.'] then .error .startDot
      else if containsB name ['.', '.'] then .error .doubleDot
      else if hasSuffixB name ['/'] then .error .endSlash
      else if hasSuffixB name ['.', 'l', 'o', 'c', 'k'] then .error .endLock
      else if !name.all validChar then .error .badChars
      else .ok ()

/-- `ValidateGitArg` of validate.go lines 109-139. -/
def ValidateGitArg (arg : Str) : Except VErr Unit :=
  if hasPrefixB arg "refs/".toList || hasPrefixB arg ['%', cLParen] ||
      hasPrefixB arg "credential.".toList then .ok ()
  else
    match dangerousPatterns.find? (fun p => containsB arg p) with
    | some p => .error (.dangerous p)
    | none =>
      if hasPrefixB arg ['-'] then
        if allowedGitArgs.contains arg then .ok () else .error (.unsupportedFlag arg)
      else if allowedGitArgs.contains arg then .ok ()
      else ValidateBranchName arg

/-- `SanitizeBranchName` of validate.go lines 179-208. The final Go step
`validCharsRegex.ReplaceAllString(name, dash)` uses the anchored regex
(caret, class, plus, dollar), which can only match the whole string, so it
rewrites the string to a single dash exactly when the string is non-empty and
every character is in the class, and leaves it unchanged otherwise. -/
def SanitizeBranchName (name : Str) : Str :=
  let s1 := dangerousPatterns.foldl (fun acc p => replaceAllB acc p []) name
  let s2 := s1.filter (fun c => !(unicodeIsControl c || unicodeIsSpace c))
  let s3 := invalidSequences.foldl (fun acc p => replaceAllB acc p []) s2
  let s4 := trimLeftB s3 ['.', '-']
  let s5 := trimRightB s4 ['.', '/']
  let s6 := if !s5.isEmpty && s5.all validChar then ['-'] else s5
  trimSpaceB s6

end V1

namespace V2

/-! Revision of `internal/git/validate.go` at lines 209-427. -/

/-- Inner character class of `branchNamePattern` (letters, digits, dash,
slash, underscore). -/
def patternChar (c : Char) : Bool :=
  isAlnum c || c = '-' || c = '/' || c = '_'

/-- Matches the tail of `branchNamePattern`: zero or more inner-class
characters followed by one final letter or digit. -/
def tailPattern : Str → Bool
  | [] => false
  | [d] => isAlnum d
  | d :: e :: r => patternChar d && tailPattern (e :: r)

/-- `branchNamePattern` of validate.go line 304 (anchored): a leading letter
or digit, then inner-class characters, ending in a letter or digit; minimum
length two. -/
def branchNamePatternB : Str → Bool
  | [] => false
  | c :: rest => isAlnum c && tailPattern rest

/-- `allowedGitCommands` of validate.go lines 235-245. -/
def allowedGitCommands : List Str :=
  ["branch".toList, "push".toList, "rev-parse".toList, "show-ref".toList,
   "ls-remote".toList, "for-each-ref".toList, "checkout".toList, "commit".toList]

/-- `allowedGitFlags` of validate.go lines 248-283. -/
def allowedGitFlags : List Str :=
  ["-d".toList, "-D".toList, "-b".toList, "--delete".toList, "--force".toList,
   "--allow-empty".toList, "-r".toList, "--remotes".toList, "--merged".toList,
   "--no-merged".toList, "--format".toList, "--abbrev-ref".toList, "--verify".toList,
   "--quiet".toList, "--porcelain".toList, "-v".toList, "-vv".toList, "--short".toList,
   "origin".toList, "--progress".toList, "--all".toList,
   "HEAD".toList, "refs/heads".toList, "refs/remotes".toList, "-c".toList]

/-- Rejection reasons of this revision's validators, one constructor per
`return fmt.Errorf` site. -/
inductive V2Err
  | empty
  | badFormat
  | unsupportedArg (a : Str)
deriving DecidableEq

/-- `ValidateBranchName` of validate.go lines 374-385: trims surrounding
whitespace, then requires a `branchNamePattern` match. -/
def ValidateBranchName (name : Str) : Except V2Err Unit :=
  let n := trimSpaceB name
  if n.isEmpty then .error .empty
  else if !branchNamePatternB n then .error .badFormat
  else .ok ()

/-- `ValidateGitArg` of validate.go lines 323-355. -/
def ValidateGitArg (arg : Str) : Except V2Err Unit :=
  if arg.isEmpty then .ok ()
  else if allowedGitCommands.contains arg then .ok ()
  else if allowedGitFlags.contains arg then .ok ()
  else if hasPrefixB arg ['%', cLParen] && hasSuffixB arg [cRParen] then .ok ()
  else if hasPrefixB arg "refs/".toList then ValidateBranchName (trimPrefixB arg "refs/".toList)
  else if branchNamePatternB arg then .ok ()
  else .error (.unsupportedArg arg)

end V2

namespace V3

/-! Revision of `internal/git/validate.go` at lines 428-612. -/

/-- `disallowedChars` of validate.go line 438, in source order. Note that the
shell conjunction operators appear doubled (two ampersands, two bars) while a
lone ampersand is absent. -/
def disallowedChars : List Str :=
  [[cSemi], [cAmp, cAmp], [cPipe, cPipe], [cBacktick], [cDollar], [cPipe], [cGt], [cLt],
   [cLParen], [cRParen], [cLBrace], [cRBrace], [cLBracket], [cRBracket],
   [cDQuote], [cSQuote], [cNL], [cCR]]

/-- `invalidEndings` of validate.go line 441. -/
def invalidEndings : List Str :=
  [['/'], ['.'], ['.', 'l', 'o', 'c', 'k']]

/-- `invalidSequences` of validate.go line 444. -/
def invalidSequences : List Str :=
  [['.', '.'], ['/', '/'], ['@', cLBrace], ['.', 'l', 'o', 'c', 'k', '/']]

/-- Rejection reasons of this revision's `ValidateBranchName`, one
constructor per `return fmt.Errorf` site. -/
inductive V3Err
  | empty
  | badChar (c : Str)
  | badSeq (s : Str)
  | badEnding (e : Str)
  | startDash
  | startDot
  | controlOrSpace (i : Nat)
  | controlExplicit (i : Nat)
  | doubleDot
  | doubleSlash
deriving DecidableEq

/-- `ValidateBranchName` of validate.go lines 522-583. -/
def ValidateBranchName (name : Str) : Except V3Err Unit :=
  if (trimSpaceB name).isEmpty then .error .empty
  else
    match disallowedChars.find? (fun p => containsB name p) with
    | some p => .error (.badChar p)
    | none =>
      match invalidSequences.find? (fun p => containsB name p) with
      | some p => .error (.badSeq p)
      | none =>
        match invalidEndings.find? (fun p => hasSuffixB name p) with
        | some p => .error (.badEnding p)
        | none =>
          if hasPrefixB name ['-'] then .error .startDash
          else if hasPrefixB name ['.'] then .error .startDot
          else
            match name.findIdx? (fun c => unicodeIsControl c || unicodeIsSpace c) with
            | some i => .error (.controlOrSpace i)
            | none =>
              match name.findIdx? (fun c => c.toNat ≤ 0x20 || c.toNat = 0x7F) with
              | some i => .error (.controlExplicit i)
              | none =>
                if containsB name ['.', '.'] then .error .doubleDot
                else if containsB name ['/', '/'] then .error .doubleSlash
                else .ok ()

/-- `SanitizeBranchName` of validate.go lines 586-612. -/
def SanitizeBranchName (name : Str) : Str :=
  let s1 := disallowedChars.foldl (fun acc p => replaceAllB acc p []) name
  let s2 := s1.filter (fun c => !(unicodeIsControl c || unicodeIsSpace c))
  let s3 := invalidSequences.foldl (fun acc p => replaceAllB acc p []) s2
  let s4 := trimLeftB s3 ['.', '-']
  let s5 := trimRightB s4 ['.', '/']
  trimSpaceB s5

end V3

/-- Go `err != nil` on an `error`-returning call embedded as `Except`. -/
def isErrB {ε α : Type} : Except ε α → Bool
  | .error _ => true
  | .ok _ => false

/-- An argument vector handed to the external git executable. -/
abbrev Cmd := List Str

/-- Outcome of actually running the external tool on one argument vector:
captured stdout on a zero exit; captured stderr plus the Go-level error text
on a non-zero exit; or expiry of the per-call timeout. -/
inductive RunResult
  | ok (out : Str)
  | fail (stderr under : Str)
  | timedOut
deriving DecidableEq

/-- The external tool, abstracted: each argument vector deterministically
yields one outcome (one fixed repository state per environment value). -/
def GitEnv := Cmd → RunResult

/-- Errors of the git layer, one constructor per construction site in
`internal/git` (`errors.go` helpers and the `fmt.Errorf` sites of `git.go`).
`wrap` models `fmt.Errorf` with a colon and a wrapped error. `invalidArg`
models the argument-validation failure of `execGit` (its reason text is
never inspected and is elided); `invalidName` the branch-name validation
failure of the safe `DeleteBranch`. -/
inductive GErr
  | invalidArg (a : Str)
  | invalidName (n : Str)
  | command (cmd stderr under : Str)
  | cmdTimeout (cmd : Str)
  | protectedBranch (name : Str)
  | notFound (name : Str)
  | unmerged (name : Str)
  | authError
  | authHelpRemote
  | permHelpRemote
  | wrap (pre : Str) (e : GErr)
deriving DecidableEq

/-- `strings.Join args sep` over an argument vector, as used for the command
text stored in git-command errors. -/
def renderCmd (args : Cmd) : Str :=
  joinCharB ' ' args

/-- The Go `Error()` string of each error, as far as the sources inspect it
with `strings.Contains`: `command` renders the `newGitCommandError` format
(command text in single quotes, then `failed:`, the captured stderr, a colon
and the underlying error text); `wrap` renders prefix, colon, inner message.
The remaining constructors carry fixed texts that never satisfy any substring
probe of the sources; they are rendered by constructor-specific tags. -/
def GErr.msg : GErr → Str
  | invalidArg a => "invalid git argument ".toList ++ a
  | invalidName n => "invalid branch name ".toList ++ n
  | command c s u =>
      "git command ".toList ++ [cSQuote] ++ c ++ [cSQuote] ++ " failed: ".toList ++ s ++
        ": ".toList ++ u
  | cmdTimeout c => "git command ".toList ++ [cSQuote] ++ c ++ [cSQuote] ++ " timed out".toList
  | protectedBranch n => "cannot delete protected branch: ".toList ++ n
  | notFound n => "branch does not exist: ".toList ++ n
  | unmerged n => "branch ".toList ++ n ++ " is not fully merged".toList
  | authError => "Git authentication failed".toList
  | authHelpRemote =>
      "authentication failed. For HTTPS, run: git config --global credential.helper store".toList
  | permHelpRemote =>
      "permission denied. Please check your credentials and repository permissions".toList
  | wrap pre e => pre ++ ": ".toList ++ e.msg

/-- The control characters `execGit` scans successful output for
(NUL, BEL, ESC, CSI - git.go lines 169 and 1214). -/
def outputBadChars : List Char :=
  [Char.ofNat 0, Char.ofNat 7, Char.ofNat 0x1B, Char.ofNat 0x9B]

/-- `isProtectedBranch` of git.go lines 563-572 (identical in all shipped
revisions): case-insensitive, whitespace-trimmed membership in the fixed
protected list. -/
def isProtectedBranch (name : Str) : Bool :=
  ["main".toList, "master".toList, "develop".toList,
   "release".toList].contains (trimSpaceB (toLowerB name))

/-- Deletion argument vectors of `DeleteBranch` (git.go lines 360-370,
853-862, 1350-1360; identical in all revisions). -/
def deleteArgs (name : Str) (force remote : Bool) : Cmd :=
  if remote then ["push".toList, "origin".toList, "--delete".toList, name]
  else if force then ["branch".toList, "-D".toList, name]
  else ["branch".toList, "-d".toList, name]

/-- The `rev-parse --abbrev-ref HEAD` current-branch query. -/
def revParseHeadCmd : Cmd :=
  ["rev-parse".toList, "--abbrev-ref".toList, "HEAD".toList]

/-- The `branch --merged <current>` merged-branch query. -/
def mergedCmd (cur : Str) : Cmd :=
  ["branch".toList, "--merged".toList, cur]

/-- The local existence probe `show-ref --verify --quiet refs/heads/<name>`
(git.go lines 276 and 900, identical across revisions). -/
def showRefCmd (name : Str) : Cmd :=
  ["show-ref".toList, "--verify".toList, "--quiet".toList, "refs/heads/".toList ++ name]

namespace G1

/-! Revision of `internal/git/git.go` at lines 1-674. Its `DeleteBranch`
(lines 338-385), `branchExists` (lines 271-287) and `execGit`
(lines 63-174) are textually identical to the third shipped revision's
`DeleteBranch` (lines 1328-1375), `branchExists` (lines 1289-1306) and
`execGit` (lines 1107-1221), except that the third revision's
`handleAuthError` re-runs the remote-access probe while this revision's
(lines 670-674) returns a fixed authentication error; no theorem below
touches that path, so this embedding stands for both revisions. -/

/-- `execGit` (git.go lines 63-174): validates every argument that is not a
format string or a ref path with `ValidateGitArg`, then runs the command;
a successful run fails if the output carries one of the four scanned control
characters, and is otherwise returned trimmed of surrounding whitespace.
The second component is the subprocess trace: the argument vectors actually
run (empty when validation rejects before spawning). -/
def execGitT (env : GitEnv) (args : Cmd) : Except GErr Str × List Cmd :=
  match args.find? (fun a =>
      !(hasPrefixB a ['%', cLParen] || hasPrefixB a "refs/".toList) &&
      isErrB (V1.ValidateGitArg a)) with
  | some a => (.error (.invalidArg a), [])
  | none =>
    match env args with
    | .timedOut => (.error (.cmdTimeout (renderCmd args)), [args])
    | .fail stderr under => (.error (.command (renderCmd args) stderr under), [args])
    | .ok out =>
      if containsAnyB out outputBadChars then
        (.error (.command (renderCmd args) out "output contains invalid characters".toList), [args])
      else (.ok (trimSpaceB out), [args])

/-- `branchExists` (git.go lines 271-287): probes `show-ref` locally or
`ls-remote origin refs/heads/<name>` remotely; a failure whose error text
contains `not found` or `unknown revision` means the branch is absent, any
other failure propagates. This is the probe's argument vector. -/
def existenceCmd (name : Str) (remote : Bool) : Cmd :=
  if remote then ["ls-remote".toList, "origin".toList, "refs/heads/".toList ++ name]
  else showRefCmd name

/-- `branchExists` continued: runs the probe and classifies the outcome. -/
def branchExists (env : GitEnv) (name : Str) (remote : Bool) :
    Except GErr Bool × List Cmd :=
  match execGitT env (existenceCmd name remote) with
  | (.error e, t) =>
    if containsB e.msg "not found".toList || containsB e.msg "unknown revision".toList then
      (.ok false, t)
    else (.error e, t)
  | (.ok _, t) => (.ok true, t)

/-- `verifyRemoteAccess` (git.go lines 387-402). -/
def verifyRemoteAccess (env : GitEnv) : Except GErr Unit × List Cmd :=
  match execGitT env ["ls-remote".toList, "--quiet".toList, "origin".toList] with
  | (.error e, t) =>
    if containsB e.msg "could not read Username".toList ||
        containsB e.msg "Authentication failed".toList then (.error .authHelpRemote, t)
    else if containsB e.msg "Permission denied".toList then (.error .permHelpRemote, t)
    else (.error (.wrap "failed to access remote repository".toList e), t)
  | (.ok _, t) => (.ok (), t)

/-- The deletion step of `DeleteBranch` (git.go lines 360-384): runs the
deletion command and maps authentication-looking failures through
`handleAuthError` (lines 670-674, a fixed authentication error). -/
def deleteStep (env : GitEnv) (name : Str) (force remote : Bool) :
    Except GErr Unit × List Cmd :=
  match execGitT env (deleteArgs name force remote) with
  | (.error e, t) =>
    if containsB e.msg "Authentication failed".toList ||
        containsB e.msg "could not read Username".toList ||
        containsB e.msg "Permission denied".toList then (.error .authError, t)
    else (.error (.wrap "failed to delete branch".toList e), t)
  | (.ok _, t) => (.ok (), t)

/-- `DeleteBranch` (git.go lines 338-385; textually identical at lines
1328-1375): checks existence, verifies remote access for remote deletions,
then issues the deletion command. This revision performs no protected-branch
check and no merged check, although its own doc comment (lines 333-337,
1323-1327) promises an error when the branch is protected or not fully
merged without force. -/
def DeleteBranch (env : GitEnv) (name : Str) (force remote : Bool) :
    Except GErr Unit × List Cmd :=
  match branchExists env name remote with
  | (.error e, t1) => (.error (.wrap "failed to check if branch exists".toList e), t1)
  | (.ok false, t1) => (.error (.notFound name), t1)
  | (.ok true, t1) =>
    if remote then
      match verifyRemoteAccess env with
      | (.error e, t2) =>
        if containsB e.msg "Authentication failed".toList ||
            containsB e.msg "could not read Username".toList ||
            containsB e.msg "Permission denied".toList then (.error .authError, t1 ++ t2)
        else (.error e, t1 ++ t2)
      | (.ok _, t2) =>
        let r := deleteStep env name force remote
        (r.1, t1 ++ t2 ++ r.2)
    else
      let r := deleteStep env name force remote
      (r.1, t1 ++ r.2)

/-- `GitBranch` of git.go lines 188-201 (field defaults are Go zero values). -/
structure GitBranch where
  Name : Str := []
  CommitHash : Str := []
  Reference : Str := []
  IsCurrent : Bool := false
  IsRemote : Bool := false
  IsDefault : Bool := false
  IsMerged : Bool := false
  IsStale : Bool := false
  IsBehind : Bool := false
  Message : Str := []
  TrackingBranch : Str := []
deriving DecidableEq

/-- `isDefaultBranch` (git.go lines 260-268): exact match against the two
fully qualified default refs. -/
def isDefaultBranch (ref : Str) : Bool :=
  ref = "refs/heads/main".toList || ref = "refs/heads/master".toList

/-- `ParseBranchLine` (git.go lines 226-257): whitespace fields; the first
two are ref name and commit hash, the rest re-joined form the tracking info;
a `behind` marker sets `IsBehind`, a `gone` marker sets `IsStale`. -/
def ParseBranchLine (line : Str) : Option GitBranch :=
  match fieldsB line with
  | p0 :: p1 :: rest =>
    let trackingInfo := joinCharB ' ' rest
    some
      { Name := trimPrefixB (trimPrefixB p0 "refs/heads/".toList) "refs/remotes/".toList,
        CommitHash := p1,
        Reference := p0,
        IsRemote := hasPrefixB p0 "refs/remotes/".toList,
        IsDefault := isDefaultBranch p0,
        IsBehind := containsB trackingInfo "behind".toList,
        IsStale := containsB trackingInfo "gone".toList }
  | _ => none

end G1

namespace G2

/-! Revision of `internal/git/git.go` at lines 675-1044: the revision with
the guarded `DeleteBranch` and the de-duplicating `ListBranches`. Its
validator calls are bound to the revision of namespace `V1`: that is the
only shipped validator under which this revision's own fixed argument
vectors (notably the `--heads` flag of its remote existence probe) pass its
executor's allow-list validation, so it is the self-consistent pairing. -/

/-- `GitBranch` of git.go lines 808-819 (field defaults are Go zero values). -/
structure GitBranch where
  Name : Str := []
  CommitHash : Str := []
  Reference : Str := []
  IsCurrent : Bool := false
  IsRemote : Bool := false
  IsDefault : Bool := false
  IsMerged : Bool := false
  IsStale : Bool := false
  Message : Str := []
deriving DecidableEq

/-- `execGit` (git.go lines 735-806): first validates every argument that is
not a format string or ref path with `ValidateGitArg`, then validates the
branch-name part of every `refs/heads/` or `refs/remotes/` argument, then
runs the command; successful output is rejected when it carries one of the
four scanned control characters and otherwise returned trimmed. The second
component is the subprocess trace. -/
def execGitT (env : GitEnv) (args : Cmd) : Except GErr Str × List Cmd :=
  match args.find? (fun a =>
      !(hasPrefixB a ['%', cLParen] || hasPrefixB a "refs/".toList) &&
      isErrB (V1.ValidateGitArg a)) with
  | some a => (.error (.invalidArg a), [])
  | none =>
    match args.find? (fun a =>
        (hasPrefixB a "refs/heads/".toList || hasPrefixB a "refs/remotes/".toList) &&
        isErrB (V1.ValidateBranchName
          (trimPrefixB (trimPrefixB a "refs/heads/".toList) "refs/remotes/".toList))) with
    | some a => (.error (.invalidName a), [])
    | none =>
      match env args with
      | .timedOut => (.error (.cmdTimeout (renderCmd args)), [args])
      | .fail stderr under => (.error (.command (renderCmd args) stderr under), [args])
      | .ok out =>
        if containsAnyB out outputBadChars then
          (.error (.command (renderCmd args) out "output contains invalid characters".toList),
           [args])
        else (.ok (trimSpaceB out), [args])

/-- `branchExists` (git.go lines 894-911): `show-ref` locally,
`ls-remote --heads origin <name>` remotely; a failure whose text contains
`not found` or `unknown revision` means absent. This is the probe's
argument vector. -/
def existenceCmd (name : Str) (remote : Bool) : Cmd :=
  if remote then ["ls-remote".toList, "--heads".toList, "origin".toList, name]
  else showRefCmd name

/-- `branchExists` continued: runs the probe and classifies the outcome. -/
def branchExists (env : GitEnv) (name : Str) (remote : Bool) :
    Except GErr Bool × List Cmd :=
  match execGitT env (existenceCmd name remote) with
  | (.error e, t) =>
    if containsB e.msg "not found".toList || containsB e.msg "unknown revision".toList then
      (.ok false, t)
    else (.error e, t)
  | (.ok _, t) => (.ok true, t)

/-- The merged-name extraction of `isBranchMerged` (git.go lines 883-889):
each line of `branch --merged` output, whitespace-trimmed and stripped of
the leading current-branch star. -/
def mergedLineNames (out : Str) : List Str :=
  (splitCharB cNL out).map (fun l => trimLeftB (trimSpaceB l) ['*', ' '])

/-- `isBranchMerged` (git.go lines 868-892): queries the current branch,
then whether `name` appears in the `branch --merged <current>` output. -/
def isBranchMerged (env : GitEnv) (name : Str) : Except GErr Bool × List Cmd :=
  match execGitT env revParseHeadCmd with
  | (.error e, t1) => (.error (.wrap "failed to get current branch".toList e), t1)
  | (.ok cur, t1) =>
    match execGitT env (mergedCmd cur) with
    | (.error e, t2) => (.error (.wrap "failed to check merged branches".toList e), t1 ++ t2)
    | (.ok out, t2) => (.ok ((mergedLineNames out).contains name), t1 ++ t2)

/-- The deletion step of `DeleteBranch` (git.go lines 853-865): builds the
argument vector and returns the raw `execGit` outcome. -/
def deleteStep (env : GitEnv) (name : Str) (force remote : Bool) :
    Except GErr Unit × List Cmd :=
  match execGitT env (deleteArgs name force remote) with
  | (.error e, t) => (.error e, t)
  | (.ok _, t) => (.ok (), t)

/-- `DeleteBranch` (git.go lines 822-866): validates the name, refuses
protected branches before any subprocess call, re-checks existence, performs
the merged check exactly when deleting locally without force, then issues
the deletion command. -/
def DeleteBranch (env : GitEnv) (name : Str) (force remote : Bool) :
    Except GErr Unit × List Cmd :=
  if isErrB (V1.ValidateBranchName name) then (.error (.invalidName name), [])
  else if isProtectedBranch name then (.error (.protectedBranch name), [])
  else
    match branchExists env name remote with
    | (.error e, t1) => (.error (.wrap "failed to check branch".toList e), t1)
    | (.ok false, t1) => (.error (.notFound name), t1)
    | (.ok true, t1) =>
      if !force && !remote then
        match isBranchMerged env name with
        | (.error e, t2) =>
          (.error (.wrap "failed to check if branch is merged".toList e), t1 ++ t2)
        | (.ok false, t2) => (.error (.unmerged name), t1 ++ t2)
        | (.ok true, t2) =>
          let r := deleteStep env name force remote
          (r.1, t1 ++ t2 ++ r.2)
      else
        let r := deleteStep env name force remote
        (r.1, t1 ++ r.2)

/-- `parseBranchLine` (git.go lines 1019-1044): four space-separated parts
(name, hash, reference, rest); `HEAD` and `heads/`-prefixed refs yield the
zero value, as does any line with fewer than four parts. -/
def parseBranchLine (line : Str) : GitBranch :=
  match splitNB ' ' 4 line with
  | [n, h, ref, info] =>
    if n = "HEAD".toList || hasPrefixB n "heads/".toList then {}
    else
      { Name := n,
        CommitHash := h,
        Reference := ref,
        IsCurrent := hasPrefixB info ['*'],
        IsRemote := hasPrefixB n "origin/".toList,
        IsDefault := isProtectedBranch n,
        Message := trimPrefixB info ['*', ' '] }
  | _ => {}

/-- The merged-set construction of `ListBranches` (git.go lines 926-932):
trimmed, star-stripped, non-empty lines of the `branch --merged` output. -/
def mergedSetOf (mergedOut : Str) : List Str :=
  ((splitCharB cNL mergedOut).map (fun l => trimLeftB (trimSpaceB l) ['*', ' '])).filter
    (fun b => !b.isEmpty)

/-- One iteration of the branch-collection loops of `ListBranches`
(git.go lines 950-971 and 974-1001): a candidate produced by `mk` is
appended only when its name has not been seen, and its name is then marked
seen. The state is the seen-name set paired with the accumulated list. -/
def branchStep (mk : Str → Option GitBranch) (st : List Str × List GitBranch) (line : Str) :
    List Str × List GitBranch :=
  match mk line with
  | none => st
  | some b => if st.1.contains b.Name then st else (b.Name :: st.1, st.2 ++ [b])

/-- The local-branch candidate of `ListBranches` (git.go lines 950-971):
skip empty lines, zero-value parses, `/HEAD` refs and invalid names; mark
merged by name. -/
def localMk (merged : List Str) (line : Str) : Option GitBranch :=
  if line.isEmpty then none
  else
    let b := parseBranchLine line
    if b.Name.isEmpty || hasSuffixB b.Name "/HEAD".toList then none
    else if isErrB (V1.ValidateBranchName b.Name) then none
    else some { b with IsMerged := merged.contains b.Name }

/-- The remote-branch candidate of `ListBranches` (git.go lines 974-1001):
like `localMk`, but the `origin/` prefix is stripped from the display name,
`IsRemote` is set, and merged status is looked up under the prefixed name. -/
def remoteMk (merged : List Str) (line : Str) : Option GitBranch :=
  if line.isEmpty then none
  else
    let b := parseBranchLine line
    if b.Name.isEmpty || hasSuffixB b.Name "/HEAD".toList then none
    else
      let b :=
        if hasPrefixB b.Name "origin/".toList then
          { b with Name := trimPrefixB b.Name "origin/".toList }
        else b
      if isErrB (V1.ValidateBranchName b.Name) then none
      else some { b with IsRemote := true, IsMerged := merged.contains ("origin/".toList ++ b.Name) }

/-- `ListBranches` (git.go lines 914-1004), parameterized by the textual
outputs of its three parsed queries (the current-branch query feeds only the
argument of the merged query and does not affect parsing): local lines are
collected first, then remote lines, both deduplicated through the shared
seen-name set of `branchStep`. -/
def ListBranches (mergedOut localOut remoteOut : Str) : List GitBranch :=
  let merged := mergedSetOf mergedOut
  let st1 := (splitCharB cNL localOut).foldl (branchStep (localMk merged)) ([], [])
  let st2 := (splitCharB cNL remoteOut).foldl (branchStep (remoteMk merged)) st1
  st2.2

end G2

namespace G3

/-! Revision of `internal/git/git.go` at lines 1045-1583, together with the
`Branch` record it operates on (shipped separately; the revision's package
documentation describes its fields). Only the members a claim cites are
embedded; its `DeleteBranch`, `branchExists` and `execGit` are textually
identical to those of namespace `G1` (see the note there). -/

/-- The `Branch` record of this revision (fields per the shipped definition:
no `IsBehind` field exists; defaults are Go zero values). -/
structure Branch where
  Name : Str := []
  CommitHash : Str := []
  Message : Str := []
  IsLocal : Bool := false
  IsRemote : Bool := false
  IsDefault : Bool := false
  IsCurrent : Bool := false
  IsStale : Bool := false
  IsMerged : Bool := false
deriving DecidableEq

/-- `ParseBranchLine` (git.go lines 1246-1276): like the `G1` parser, but a
`behind` marker in the tracking info sets `IsMerged` (the record has no
`IsBehind` field), and a `gone` marker sets `IsStale`. -/
def ParseBranchLine (line : Str) : Option Branch :=
  match fieldsB line with
  | p0 :: p1 :: rest =>
    let trackingInfo := joinCharB ' ' rest
    some
      { Name := trimPrefixB (trimPrefixB p0 "refs/heads/".toList) "refs/remotes/".toList,
        CommitHash := p1,
        IsRemote := hasPrefixB p0 "refs/remotes/".toList,
        IsDefault := G1.isDefaultBranch p0,
        IsMerged := containsB trackingInfo "behind".toList,
        IsStale := containsB trackingInfo "gone".toList }
  | _ => none

end G3

namespace Batch

/-! `internal/git/batch.go`. Both shipped revisions of `ProcessBranches`
(lines 47-87 and 144-187) are identical up to the element record and the
integer-min helper (the first routes `min` through `math.Min` on `float64`,
exact on every list length arising here); the embedding uses the `GitBranch`
record, matching the second revision. -/

/-- `batchSize` of batch.go line 9 resp. 95. -/
def batchSize : Nat := 10

/-- The chunking loop of `ProcessBranches` (batch.go lines 51-53, 148-150):
`for i := 0; i < len; i += batchSize { batch := branches[i:min(i+batchSize, len)] }`,
embedded as successive take/drop. The first argument is fuel; any amount at
least the list length yields the loop's chunks. -/
def chunksCore : Nat → List G1.GitBranch → List (List G1.GitBranch)
  | _, [] => []
  | 0, _ :: _ => []
  | f + 1, b :: t => ((b :: t).take batchSize) :: chunksCore f ((b :: t).drop batchSize)

/-- The chunks handed to the goroutines of `ProcessBranches`. -/
def chunks (l : List G1.GitBranch) : List (List G1.GitBranch) :=
  chunksCore l.length l

/-- The body of one chunk goroutine (batch.go lines 56-64, 153-161): the
branches of the chunk are processed strictly in order; the first error stops
the chunk. Returns the branches on which `fn` was invoked, in invocation
order, and the first error if any. -/
def runChunk (fn : G1.GitBranch → Except GErr Unit) :
    List G1.GitBranch → List G1.GitBranch × Option GErr
  | [] => ([], none)
  | b :: rest =>
    match fn b with
    | .error e => ([b], some e)
    | .ok _ =>
      let r := runChunk fn rest
      (b :: r.1, r.2)

/-- The chunk goroutine body again, annotated with wall-clock start times:
`opTime` gives each operation's duration, `now` the clock at loop entry.
The control flow is exactly that of the source loop, which consults no
deadline or context between iterations; the clock is a ghost observer. -/
def runChunkTimed (fn : G1.GitBranch → Except GErr Unit) (opTime : G1.GitBranch → Nat) :
    Nat → List G1.GitBranch → List (G1.GitBranch × Nat) × Option GErr
  | _, [] => ([], none)
  | now, b :: rest =>
    match fn b with
    | .error e => ([(b, now)], some e)
    | .ok _ =>
      let r := runChunkTimed fn opTime (now + opTime b) rest
      ((b, now) :: r.1, r.2)

/-- The guarantee claimed of both batch modes, stated from the spec's words:
no per-branch operation starts at or after the moment the deadline has
elapsed (every recorded start time precedes the deadline). -/
def noOpStartsAfterDeadline (fn : G1.GitBranch → Except GErr Unit)
    (opTime : G1.GitBranch → Nat) (deadline : Nat) (branches : List G1.GitBranch) : Prop :=
  ∀ p ∈ (runChunkTimed fn opTime 0 branches).1, p.2 < deadline

instance (fn : G1.GitBranch → Except GErr Unit) (opTime : G1.GitBranch → Nat)
    (deadline : Nat) (branches : List G1.GitBranch) :
    Decidable (noOpStartsAfterDeadline fn opTime deadline branches) := by
  unfold noOpStartsAfterDeadline
  infer_instance

end Batch

/-- A concrete branch record used by concrete evaluations. -/
def sampleBranch (n : Str) : G1.GitBranch :=
  { Name := n, CommitHash := "abc123".toList }

/-- An environment in which every git invocation exits successfully with
empty output (in particular, both existence probes report presence and both
deletion commands succeed). -/
def envAllOk : GitEnv := fun _ => .ok []

/-- An environment in which the branch `feat2` exists but the non-forced
local deletion fails, the tool refusing with its usual unmerged message. -/
def envUnmergedFeat : GitEnv := fun c =>
  if c = deleteArgs "feat2".toList false false then
    .fail "error: The branch feat2 is not fully merged.".toList "exit status 1".toList
  else .ok []

/-- An environment in which the local existence probe for `gone-branch`
fails with a not-found message and everything else succeeds. -/
def envGoneBranch : GitEnv := fun c =>
  if c = showRefCmd "gone-branch".toList then
    .fail "fatal: ref refs/heads/gone-branch not found".toList "exit status 1".toList
  else .ok []

/-- An environment whose every command succeeds, printing a line that embeds
the control character U+0001. -/
def envCtlOut : GitEnv := fun _ => .ok ['a', Char.ofNat 1, 'b']

/-- A branch record for witness evaluations. -/
def bb : G1.GitBranch := sampleBranch "bb".toList

/-- Twenty-five branch records, the batch-scenario input of the spec. -/
def l25 : List G1.GitBranch := List.replicate 25 bb

/-- A per-branch operation that always succeeds. -/
def fnOk : G1.GitBranch → Except GErr Unit := fun _ => .ok ()

/-- An environment for the witness of the unmerged-deletion theorem: the
current branch reads `main`, everything else succeeds with empty output. -/
def envW : GitEnv := fun c =>
  if c = revParseHeadCmd then .ok "main".toList else .ok []

/-- An environment whose every command succeeds, printing a lone BEL
control character (one of the four scanned ones). -/
def envBell : GitEnv := fun _ => .ok [Char.ofNat 7]

/-- C1: the claim states that for every protected name, deleteBranch fails
with ProtectedBranch for every force value, before any subprocess call. The
guarded engine (git.go 822-866) behaves exactly so, but the revision of
lines 338-385 / 1328-1375 performs no protection check at all, contradicting
its own doc comment: with every git invocation succeeding and the protected
branch `master` present, it reports success and its subprocess trace ends
with the issued deletion command `branch -D master` (resp. `branch -d`). -/
theorem c1_protection_bug :
    G1.DeleteBranch envAllOk "master".toList true false =
      (.ok (), [showRefCmd "master".toList, ["branch".toList, "-D".toList, "master".toList]]) ∧
    G1.DeleteBranch envAllOk "master".toList false false =
      (.ok (), [showRefCmd "master".toList, ["branch".toList, "-d".toList, "master".toList]]) ∧
    G2.DeleteBranch envAllOk "master".toList true false =
      (.error (.protectedBranch "master".toList), []) ∧
    G2.DeleteBranch envAllOk "master".toList false false =
      (.error (.protectedBranch "master".toList), []) ∧
    isProtectedBranch "master".toList = true := by
  decide

/-- C3: the claim states that every name containing one of the listed shell
metacharacters is rejected. The primary validator (validate.go 142-176)
rejects `a&b` through its dangerous-pattern scan, but the revision at lines
522-583 accepts it: its blacklist carries the doubled `&&` and not a lone
ampersand, so `ValidateBranchName` returns ok on a name containing `&`. -/
theorem c3_ampersand_bug :
    V3.ValidateBranchName "a&b".toList = .ok () ∧
    containsRuneB "a&b".toList cAmp = true ∧
    V1.ValidateBranchName "a&b".toList = .error (.dangerous [cAmp]) ∧
    V3.ValidateBranchName "feature*test".toList = .ok () := by
  decide

/-- C9: the claim states that a `behind` marker in the tracking info sets
isBehind and leaves isMerged alone. The parser of git.go 226-257 does
exactly that, but the revision at lines 1246-1276 sets IsMerged instead
(its record has no IsBehind field at all), conflating unpulled upstream
commits with merge status. -/
theorem c9_behind_bug :
    G1.ParseBranchLine "refs/heads/feature abc123 behind 2".toList =
      some { Name := "feature".toList, CommitHash := "abc123".toList,
             Reference := "refs/heads/feature".toList, IsBehind := true } ∧
    (G1.ParseBranchLine "refs/heads/feature abc123 behind 2".toList).map
        G1.GitBranch.IsBehind = some true ∧
    (G1.ParseBranchLine "refs/heads/feature abc123 behind 2".toList).map
        G1.GitBranch.IsMerged = some false ∧
    G3.ParseBranchLine "refs/heads/feature abc123 behind 2".toList =
      some { Name := "feature".toList, CommitHash := "abc123".toList, IsMerged := true } ∧
    (G3.ParseBranchLine "refs/heads/feature abc123 behind 2".toList).map
        G3.Branch.IsMerged = some true := by
  decide

/-- C4 counterexample: a branch present both as the local ref `feat` and as
its remote-tracking counterpart `origin/feat` is collapsed by listBranches
into one record (the local one, isRemote false) instead of the claimed two
records distinguished by isRemote: the seen-set of the collection loops is
keyed by display name alone. -/
theorem c4_counterexample :
    G2.ListBranches [] "feat abc123 up x".toList "origin/feat def456 up x".toList =
      [{ Name := "feat".toList, CommitHash := "abc123".toList, Reference := "up".toList,
         Message := "x".toList }] ∧
    (G2.ListBranches [] "feat abc123 up x".toList "origin/feat def456 up x".toList).length
      = 1 ∧
    (G2.ListBranches [] "feat abc123 up x".toList
        "origin/feat def456 up x".toList).all (fun b => !b.IsRemote) = true := by
  decide

/-- C7 counterexample: with two branches whose operations take 10 time units
each and a deadline of 5, the chunk worker of the fail-fast mode still
invokes the second branch operation, which starts at time 10, at or after
the elapsed deadline: the worker loop consults no deadline. -/
theorem c7_counterexample :
    ¬ Batch.noOpStartsAfterDeadline (fun _ => .ok ()) (fun _ => 10) 5
        [sampleBranch "b1".toList, sampleBranch "b2".toList] ∧
    (Batch.runChunkTimed (fun _ => .ok ()) (fun _ => 10) 0
        [sampleBranch "b1".toList, sampleBranch "b2".toList]).1 =
      [(sampleBranch "b1".toList, 0), (sampleBranch "b2".toList, 10)] := by
  decide

/-- C8 counterexample: a successful invocation whose captured output embeds
the control character U+0001 is returned (trimmed) rather than rejected:
the executor scans only for NUL, BEL, ESC and CSI, not for every control
character. -/
theorem c8_counterexample :
    G1.execGitT envCtlOut ["branch".toList] =
      (.ok ['a', Char.ofNat 1, 'b'], [["branch".toList]]) ∧
    (['a', Char.ofNat 1, 'b']).any unicodeIsControl = true := by
  decide

/-- C10 counterexample: sanitizing `foo.lock` returns it unchanged and
non-empty in both shipped sanitizer revisions, yet both validators reject
it (a name must not end in `.lock`): a non-empty sanitizer output need not
pass validation. -/
theorem c10_counterexample :
    V1.SanitizeBranchName "foo.lock".toList = "foo.lock".toList ∧
    "foo.lock".toList ≠ [] ∧
    V1.ValidateBranchName "foo.lock".toList = .error .endLock ∧
    V3.SanitizeBranchName "foo.lock".toList = "foo.lock".toList ∧
    V3.ValidateBranchName "foo.lock".toList =
      .error (.badEnding ['.', 'l', 'o', 'c', 'k']) := by
  decide

/-- C2 counterexample: against an environment in which `feat2` exists and
the tool refuses the non-forced deletion as not fully merged, the
deleteBranch revision of git.go 338-385 does not fail with the typed
UnmergedBranch outcome and performs no merged-into-current-branch query at
all (its trace holds only the existence probe and the deletion command):
the in-code merge check exists only in the engine of lines 822-866. -/
theorem c2_counterexample :
    G1.DeleteBranch envUnmergedFeat "feat2".toList false false =
      (.error (.wrap "failed to delete branch".toList
        (.command (renderCmd (deleteArgs "feat2".toList false false))
          "error: The branch feat2 is not fully merged.".toList "exit status 1".toList)),
       [showRefCmd "feat2".toList, deleteArgs "feat2".toList false false]) ∧
    (G1.DeleteBranch envUnmergedFeat "feat2".toList false false).1 ≠
      .error (.unmerged "feat2".toList) ∧
    revParseHeadCmd ∉ (G1.DeleteBranch envUnmergedFeat "feat2".toList false false).2 := by
  decide

/-- A string prefixed with itself-plus-anything passes the prefix test. -/
theorem hasPrefixB_append (p x : Str) : hasPrefixB (p ++ x) p = true := by
  induction p with
  | nil => simp [hasPrefixB]
  | cons c t ih => simpa [hasPrefixB] using ih

/-- Arguments of the existence probe always pass `execGit`'s validation:
the fixed tokens are allow-listed and the ref path is skipped. -/
theorem existenceCmd_args_ok (name : Str) (remote : Bool) :
    (G1.existenceCmd name remote).find? (fun a =>
      !(hasPrefixB a ['%', cLParen] || hasPrefixB a "refs/".toList) &&
      isErrB (V1.ValidateGitArg a)) = none := by
  have href : ∀ x : Str, hasPrefixB ("refs/heads/".toList ++ x) "refs/".toList = true := by
    intro x
    have h : "refs/heads/".toList ++ x = "refs/".toList ++ ("heads/".toList ++ x) := by
      simp
    rw [h]
    exact hasPrefixB_append _ _
  have href2 : ∀ x : Str,
      hasPrefixB ('r' :: 'e' :: 'f' :: 's' :: '/' :: 'h' :: 'e' :: 'a' :: 'd' :: 's' :: '/' :: x)
        ['r', 'e', 'f', 's', '/'] = true := fun x => href x
  rw [List.find?_eq_none]
  intro x hx
  cases remote with
  | false =>
    simp only [G1.existenceCmd, showRefCmd, if_neg (by simp : ¬ (false = true)),
      List.mem_cons, List.not_mem_nil, or_false] at hx
    rcases hx with rfl | rfl | rfl | rfl
    · decide
    · decide
    · decide
    · simp [href2 name]
  | true =>
    simp only [G1.existenceCmd, if_true, List.mem_cons, List.not_mem_nil, or_false] at hx
    obtain rfl | rfl | rfl := hx
    · decide
    · decide
    · simp [href2 name]

/-- C5: deleting a branch whose existence probe fails with a
`not found`-bearing error (the code's only notion of a non-existent branch,
local or remote according to the `remote` flag) fails with the NotFound
outcome for every force and remote value, and the subprocess trace is the
single existence probe - in particular no deletion command is ever issued.
The result is a function of the environment and the arguments alone, so
repeated calls return the same NotFound failure. -/
theorem c5_delete_notfound (env : GitEnv) (name stderr under : Str) (force remote : Bool)
    (hrun : env (G1.existenceCmd name remote) = .fail stderr under)
    (hmsg : containsB
        (GErr.msg (.command (renderCmd (G1.existenceCmd name remote)) stderr under))
        "not found".toList = true) :
    G1.DeleteBranch env name force remote =
      (.error (.notFound name), [G1.existenceCmd name remote]) := by
  have hexec : G1.execGitT env (G1.existenceCmd name remote) =
      (.error (.command (renderCmd (G1.existenceCmd name remote)) stderr under),
       [G1.existenceCmd name remote]) := by
    unfold G1.execGitT
    rw [existenceCmd_args_ok, hrun]
  have hbe : G1.branchExists env name remote =
      (.ok false, [G1.existenceCmd name remote]) := by
    have hmsg2 : containsB
        (GErr.msg (.command (renderCmd (G1.existenceCmd name remote)) stderr under))
        ['n', 'o', 't', ' ', 'f', 'o', 'u', 'n', 'd'] = true := hmsg
    unfold G1.branchExists
    rw [hexec]
    simp [hmsg2]
  unfold G1.DeleteBranch
  rw [hbe]

/-- C5 witness: the theorem applied to the concrete environment in which the
local probe for `gone-branch` fails with the tool's not-found message. -/
theorem c5_delete_notfound_witness :
    G1.DeleteBranch envGoneBranch "gone-branch".toList true false =
      (.error (.notFound "gone-branch".toList), [G1.existenceCmd "gone-branch".toList false]) :=
  c5_delete_notfound envGoneBranch "gone-branch".toList
    "fatal: ref refs/heads/gone-branch not found".toList "exit status 1".toList true false
    (by decide) (by decide)

/-- With adequate fuel, the chunking loop yields ceiling(n/10) chunks. -/
theorem chunksCore_length (f : Nat) :
    ∀ l : List G1.GitBranch, l.length ≤ f →
      (Batch.chunksCore f l).length = (l.length + 9) / 10 := by
  induction f with
  | zero =>
    intro l hl
    cases l with
    | nil => simp [Batch.chunksCore]
    | cons b t => exact absurd hl (by simp)
  | succ f ih =>
    intro l hl
    cases l with
    | nil => simp [Batch.chunksCore]
    | cons b t =>
      have hd : ((b :: t).drop 10).length ≤ f := by
        simp only [List.length_drop, List.length_cons]
        simp only [List.length_cons] at hl
        omega
      have := ih ((b :: t).drop 10) hd
      simp only [Batch.chunksCore, Batch.batchSize, List.length_cons, this,
        List.length_drop]
      omega

/-- With adequate fuel, every chunk is non-empty and at most ten long. -/
theorem chunksCore_mem (f : Nat) :
    ∀ l : List G1.GitBranch, l.length ≤ f →
      ∀ c ∈ Batch.chunksCore f l, c.length ≤ 10 ∧ c ≠ [] := by
  induction f with
  | zero =>
    intro l hl c hc
    cases l with
    | nil => simp [Batch.chunksCore] at hc
    | cons b t => exact absurd hl (by simp)
  | succ f ih =>
    intro l hl c hc
    cases l with
    | nil => simp [Batch.chunksCore] at hc
    | cons b t =>
      simp only [Batch.chunksCore, Batch.batchSize, List.mem_cons] at hc
      rcases hc with rfl | hc
      · constructor
        · simp
        · simp [List.take_cons]
      · have hd : ((b :: t).drop 10).length ≤ f := by
          simp only [List.length_drop, List.length_cons]
          simp only [List.length_cons] at hl
          omega
        exact ih _ hd c hc

/-- With adequate fuel, the chunks concatenate back to the input, in order. -/
theorem chunksCore_join (f : Nat) :
    ∀ l : List G1.GitBranch, l.length ≤ f → (Batch.chunksCore f l).flatten = l := by
  induction f with
  | zero =>
    intro l hl
    cases l with
    | nil => simp [Batch.chunksCore]
    | cons b t => exact absurd hl (by simp)
  | succ f ih =>
    intro l hl
    cases l with
    | nil => simp [Batch.chunksCore]
    | cons b t =>
      have hd : ((b :: t).drop 10).length ≤ f := by
        simp only [List.length_drop, List.length_cons]
        simp only [List.length_cons] at hl
        omega
      simp only [Batch.chunksCore, Batch.batchSize, List.flatten_cons, ih _ hd]
      exact List.take_append_drop 10 (b :: t)

/-- The chunk worker's invocation list is an in-order prefix of its chunk. -/
theorem runChunk_trace_initial (fn : G1.GitBranch → Except GErr Unit) :
    ∀ c, (Batch.runChunk fn c).1 <+: c := by
  intro c
  induction c with
  | nil => simp [Batch.runChunk]
  | cons b rest ih =>
    cases h : fn b with
    | error e =>
      simp only [Batch.runChunk, h]
      exact ⟨rest, rfl⟩
    | ok u =>
      simp only [Batch.runChunk, h]
      exact (List.cons_prefix_cons).mpr ⟨rfl, ih⟩

/-- Strict sequencing within a chunk: whenever the worker has invoked the
operation on some branch, the operation on every branch invoked before it
completed successfully first. -/
theorem runChunk_sequential (fn : G1.GitBranch → Except GErr Unit) :
    ∀ (c pre post : List G1.GitBranch) (x : G1.GitBranch),
      (Batch.runChunk fn c).1 = pre ++ x :: post → ∀ y ∈ pre, fn y = .ok () := by
  intro c
  induction c with
  | nil =>
    intro pre post x heq
    simp [Batch.runChunk] at heq
  | cons b rest ih =>
    intro pre post x heq y hy
    cases h : fn b with
    | error e =>
      simp only [Batch.runChunk, h] at heq
      cases pre with
      | nil => simp at hy
      | cons p ps =>
        simp only [List.cons_append, List.cons.injEq] at heq
        exact absurd heq.2 (by simp)
    | ok u =>
      simp only [Batch.runChunk, h] at heq
      cases pre with
      | nil => simp at hy
      | cons p ps =>
        simp only [List.cons_append, List.cons.injEq] at heq
        rcases List.mem_cons.mp hy with rfl | hy2
        · rw [heq.1] at h
          exact h
        · exact ih ps post x heq.2 y hy2

/-- C6: the batch coordinator splits its input into ceiling(n/10) contiguous
chunks of at most ten branches each, whose concatenation is the input in
order, and within a chunk the per-branch operation is applied strictly
sequentially in input order - the worker's invocation list is a prefix of
the chunk, and an invocation implies every earlier invocation completed
successfully (branch N+1 is not started until branch N completes without
error). -/
theorem c6_chunking (l : List G1.GitBranch) (fn : G1.GitBranch → Except GErr Unit)
    (c : List G1.GitBranch) :
    (Batch.chunks l).length = (l.length + 9) / 10 ∧
    (c ∈ Batch.chunks l → c.length ≤ 10 ∧ c ≠ []) ∧
    (Batch.chunks l).flatten = l ∧
    (Batch.runChunk fn c).1 <+: c ∧
    (∀ (pre post : List G1.GitBranch) (x : G1.GitBranch),
      (Batch.runChunk fn c).1 = pre ++ x :: post → ∀ y ∈ pre, fn y = .ok ()) := by
  refine ⟨chunksCore_length l.length l le_rfl, ?_, chunksCore_join l.length l le_rfl,
    runChunk_trace_initial fn c, fun pre post x heq => runChunk_sequential fn c pre post x heq⟩
  intro hc
  exact chunksCore_mem l.length l le_rfl c hc

/-- C6 witness: twenty-five branches yield exactly three chunks; a concrete
member chunk has length at most ten and is non-empty; and in a two-branch
chunk whose operations succeed, the second branch's invocation implies the
first branch's operation succeeded. -/
theorem c6_chunking_witness :
    (Batch.chunks l25).length = 3 ∧
    (List.replicate 10 bb).length ≤ 10 ∧ List.replicate 10 bb ≠ [] ∧
    fnOk bb = .ok () := by
  obtain ⟨h1, h2, h3, h4, h5⟩ := c6_chunking l25 fnOk (List.replicate 10 bb)
  have hm : List.replicate 10 bb ∈ Batch.chunks l25 := by decide
  obtain ⟨ha, hb⟩ := h2 hm
  refine ⟨?_, ha, hb, ?_⟩
  · rw [h1]
    decide
  · obtain ⟨h1x, h2x, h3x, h4x, h5x⟩ := c6_chunking l25 fnOk [bb, bb]
    exact h5x [bb] [] bb (by decide) bb (by decide)

/-- C7 amended: the chunk worker's behavior is independent of any deadline:
the branches invoked (with or without clock annotation, from any start
time) and the first error are exactly those of the sequential
stop-at-first-error run; no deadline value influences which operations are
started, because the loop consults none. -/
theorem c7_trace_deadline_independent (fn : G1.GitBranch → Except GErr Unit)
    (opTime : G1.GitBranch → Nat) (now : Nat) (branches : List G1.GitBranch) :
    ((Batch.runChunkTimed fn opTime now branches).1.map Prod.fst,
      (Batch.runChunkTimed fn opTime now branches).2) = Batch.runChunk fn branches := by
  induction branches generalizing now with
  | nil => simp [Batch.runChunkTimed, Batch.runChunk]
  | cons b rest ih =>
    cases h : fn b with
    | error e => simp [Batch.runChunkTimed, Batch.runChunk, h]
    | ok u =>
      have hrec := ih (now + opTime b)
      simp only [Batch.runChunkTimed, Batch.runChunk, h, List.map_cons]
      rw [Prod.ext_iff] at hrec ⊢
      simp only [List.map] at hrec ⊢
      exact ⟨by rw [← hrec.1], hrec.2⟩

/-- C8 amended: on a successful exit with clean argument validation, the
executor fails with the command error exactly when the output carries one
of the four scanned control characters, and otherwise returns the output
trimmed of surrounding whitespace. -/
theorem c8_output_scan (env : GitEnv) (args : Cmd) (out : Str)
    (hv : args.find? (fun a =>
      !(hasPrefixB a ['%', cLParen] || hasPrefixB a "refs/".toList) &&
      isErrB (V1.ValidateGitArg a)) = none)
    (hrun : env args = .ok out) :
    (containsAnyB out outputBadChars = true →
      G1.execGitT env args =
        (.error (.command (renderCmd args) out "output contains invalid characters".toList),
         [args])) ∧
    (containsAnyB out outputBadChars = false →
      G1.execGitT env args = (.ok (trimSpaceB out), [args])) := by
  constructor <;> intro h <;> unfold G1.execGitT <;> rw [hv, hrun] <;> simp [h]

/-- C8 witness: the amended theorem applied to the environment printing a
lone BEL (rejected as a command error) and to the empty-output environment
(returned trimmed). -/
theorem c8_output_scan_witness :
    G1.execGitT envBell ["branch".toList] =
      (.error (.command (renderCmd ["branch".toList]) [Char.ofNat 7]
        "output contains invalid characters".toList), [["branch".toList]]) ∧
    G1.execGitT envAllOk ["branch".toList] = (.ok [], [["branch".toList]]) := by
  constructor
  · exact (c8_output_scan envBell ["branch".toList] [Char.ofNat 7] (by decide) (by decide)).1
      (by decide)
  · exact (c8_output_scan envAllOk ["branch".toList] [] (by decide) (by decide)).2 (by decide)

/-- The collection loops of listBranches preserve two invariants: the
accumulated records carry pairwise distinct names, and every accumulated
name has been marked in the seen set. -/
theorem branchStep_fold_inv (mk : Str → Option G2.GitBranch) (lines : List Str) :
    ∀ st : List Str × List G2.GitBranch,
      (st.2.map (fun b => b.Name)).Nodup →
      (∀ n ∈ st.2.map (fun b => b.Name), n ∈ st.1) →
      ((lines.foldl (G2.branchStep mk) st).2.map (fun b => b.Name)).Nodup ∧
      (∀ n ∈ (lines.foldl (G2.branchStep mk) st).2.map (fun b => b.Name),
        n ∈ (lines.foldl (G2.branchStep mk) st).1) := by
  induction lines with
  | nil =>
    intro st h1 h2
    exact ⟨h1, h2⟩
  | cons l ls ih =>
    intro st h1 h2
    simp only [List.foldl_cons]
    rcases hmk : mk l with _ | b
    · have hstep : G2.branchStep mk st l = st := by
        unfold G2.branchStep
        rw [hmk]
      rw [hstep]
      exact ih st h1 h2
    · by_cases hseen : st.1.contains b.Name = true
      · have hstep : G2.branchStep mk st l = st := by
          unfold G2.branchStep
          rw [hmk]
          show (if st.1.contains b.Name = true then st
            else (b.Name :: st.1, st.2 ++ [b])) = st
          rw [if_pos hseen]
        rw [hstep]
        exact ih st h1 h2
      · have hstep : G2.branchStep mk st l = (b.Name :: st.1, st.2 ++ [b]) := by
          unfold G2.branchStep
          rw [hmk]
          show (if st.1.contains b.Name = true then st
            else (b.Name :: st.1, st.2 ++ [b])) = (b.Name :: st.1, st.2 ++ [b])
          rw [if_neg hseen]
        rw [hstep]
        apply ih
        · simp only [List.map_append, List.map_cons, List.map_nil]
          rw [List.nodup_append]
          refine ⟨h1, by simp, ?_⟩
          intro n hn hn2
          simp only [List.mem_cons, List.not_mem_nil, or_false] at hn2
          have hmem : n ∈ st.1 := h2 n hn
          rw [hn2] at hmem
          exact hseen (by simpa [List.contains] using hmem)
        · intro n hn
          simp only [List.map_append, List.map_cons, List.map_nil, List.mem_append,
            List.mem_cons, List.not_mem_nil, or_false] at hn
          rcases hn with hn | rfl
          · exact List.mem_cons_of_mem _ (h2 n hn)
          · exact List.mem_cons_self _ _

/-- C4 amended: within one listBranches result the display name is globally
unique - in particular unique per isRemote value; the de-duplication is
keyed by name alone, so a name can never appear in two records (see the
counterexample for the collapse of a local/remote pair). -/
theorem c4_names_unique (mergedOut localOut remoteOut : Str) :
    ((G2.ListBranches mergedOut localOut remoteOut).map (fun b => b.Name)).Nodup := by
  have h1 := branchStep_fold_inv (G2.localMk (G2.mergedSetOf mergedOut))
    (splitCharB cNL localOut) ([], []) (by simp) (by simp)
  have h2 := branchStep_fold_inv (G2.remoteMk (G2.mergedSetOf mergedOut))
    (splitCharB cNL remoteOut) _ h1.1 h1.2
  exact h2.1

/-- Replacement by the empty string only deletes: the result is a sublist. -/
theorem replaceAllCore_nil_sublist (p : Char) (pt : Str) (f : Nat) :
    ∀ s : Str, (replaceAllCore p pt [] f s).Sublist s := by
  induction f with
  | zero =>
    intro s
    exact List.Sublist.refl s
  | succ f ih =>
    intro s
    cases s with
    | nil => exact List.Sublist.refl []
    | cons c t =>
      by_cases h : hasPrefixB (c :: t) (p :: pt) = true
      · have hrw : replaceAllCore p pt [] (f + 1) (c :: t) =
            replaceAllCore p pt [] f (t.drop pt.length) := by
          simp [replaceAllCore, h]
        rw [hrw]
        exact ((ih _).trans (List.drop_sublist _ _)).trans (List.sublist_cons_self c t)
      · have hrw : replaceAllCore p pt [] (f + 1) (c :: t) =
            c :: replaceAllCore p pt [] f t := by
          simp [replaceAllCore, h]
        rw [hrw]
        exact (ih t).cons₂ c

/--... and so for the full replacement helper. -/
theorem replaceAllB_nil_sublist (s pat : Str) : (replaceAllB s pat []).Sublist s := by
  cases pat with
  | nil => exact List.Sublist.refl s
  | cons p pt => exact replaceAllCore_nil_sublist p pt s.length s

/-- A left fold of empty-replacements only deletes. -/
theorem foldl_removeAll_sublist (pats : List Str) :
    ∀ s : Str, (pats.foldl (fun acc p => replaceAllB acc p []) s).Sublist s := by
  induction pats with
  | nil => intro s; exact List.Sublist.refl s
  | cons p ps ih =>
    intro s
    simp only [List.foldl_cons]
    exact (ih _).trans (replaceAllB_nil_sublist s p)

/-- Removing a one-character pattern removes every occurrence of the
character, given adequate fuel. -/
theorem replaceAllCore_single_not_mem (c : Char) (f : Nat) :
    ∀ s : Str, s.length ≤ f → c ∉ replaceAllCore c [] [] f s := by
  induction f with
  | zero =>
    intro s hs
    cases s with
    | nil => simp [replaceAllCore]
    | cons a t => exact absurd hs (by simp)
  | succ f ih =>
    intro s hs
    cases s with
    | nil => simp [replaceAllCore]
    | cons a t =>
      by_cases h : hasPrefixB (a :: t) [c] = true
      · have hrw : replaceAllCore c [] [] (f + 1) (a :: t) = replaceAllCore c [] [] f t := by
          simp [replaceAllCore, h]
        rw [hrw]
        exact ih t (by simp only [List.length_cons] at hs; omega)
      · have hac : ¬ a = c := by
          simpa [hasPrefixB] using h
        have hrw : replaceAllCore c [] [] (f + 1) (a :: t) =
            a :: replaceAllCore c [] [] f t := by
          simp [replaceAllCore, h]
        rw [hrw]
        intro hmem
        rcases List.mem_cons.mp hmem with heq | hmem2
        · exact hac heq.symm
        · exact ih t (by simp only [List.length_cons] at hs; omega) hmem2

/-- A left fold of empty-replacements whose pattern list carries the
one-character pattern of `c` removes every occurrence of `c`. -/
theorem foldl_removeAll_removes (c : Char) (pats : List Str) :
    ∀ s : Str, [c] ∈ pats → c ∉ pats.foldl (fun acc p => replaceAllB acc p []) s := by
  induction pats with
  | nil =>
    intro s h
    simp at h
  | cons p ps ih =>
    intro s h
    rcases List.mem_cons.mp h with heq | hmem
    · simp only [List.foldl_cons]
      intro hmem2
      have hbase : c ∉ replaceAllB s p [] := by
        rw [← heq]
        have hcore : c ∉ replaceAllCore c [] [] s.length s :=
          replaceAllCore_single_not_mem c s.length s le_rfl
        exact hcore
      exact hbase ((foldl_removeAll_sublist ps (replaceAllB s p [])).subset hmem2)
    · simp only [List.foldl_cons]
      exact ih _ hmem

/-- Left-trimming keeps only characters of the input. -/
theorem trimLeftB_subset (s : Str) (cut : List Char) : ∀ x ∈ trimLeftB s cut, x ∈ s := by
  intro x hx
  unfold trimLeftB at hx
  exact (List.dropWhile_sublist _).subset hx

/-- Right-trimming keeps only characters of the input. -/
theorem trimRightB_subset (s : Str) (cut : List Char) : ∀ x ∈ trimRightB s cut, x ∈ s := by
  intro x hx
  unfold trimRightB at hx
  rw [List.mem_reverse] at hx
  exact List.mem_reverse.mp ((List.dropWhile_sublist _).subset hx)

/-- Whitespace-trimming keeps only characters of the input. -/
theorem trimSpaceB_subset (s : Str) : ∀ x ∈ trimSpaceB s, x ∈ s := by
  intro x hx
  unfold trimSpaceB at hx
  exact (List.dropWhile_sublist _).subset (trimRightB_subset _ _ x hx)

/-- The two final sanitizer steps keep a character out, provided it is not
the dash that the whole-string rewrite can introduce. -/
theorem sanitize_last_steps_not_mem (c : Char) (hdash : ¬ c = '-') (s5 : Str)
    (h5 : c ∉ s5) :
    c ∉ trimSpaceB (if !s5.isEmpty && s5.all V1.validChar then ['-'] else s5) := by
  intro hm
  have hm2 := trimSpaceB_subset _ c hm
  by_cases hcond : (!s5.isEmpty && s5.all V1.validChar) = true
  · rw [if_pos hcond] at hm2
    simp only [List.mem_cons, List.not_mem_nil, or_false] at hm2
    exact hdash hm2
  · rw [if_neg hcond] at hm2
    exact h5 hm2

/-- C10 amended: every one-character dangerous pattern (semicolon,
ampersand, bar, backtick, dollar, parentheses, angle brackets, backslash,
the control whitespace characters and tilde) is entirely absent from the
sanitizer's output, for every input: the injection-character guarantee of
sanitizeBranchName does hold, even though full validity does not (see the
counterexample). -/
theorem c10_sanitize_strips_singles (s : Str) (c : Char)
    (hc : [c] ∈ V1.dangerousPatterns) : c ∉ V1.SanitizeBranchName s := by
  have hdash : ¬ c = '-' := by
    intro h
    rw [h] at hc
    exact absurd hc (by decide)
  have h1 : c ∉ V1.dangerousPatterns.foldl (fun acc p => replaceAllB acc p []) s :=
    foldl_removeAll_removes c V1.dangerousPatterns s hc
  have h2 : c ∉ (V1.dangerousPatterns.foldl (fun acc p => replaceAllB acc p []) s).filter
      (fun ch => !(unicodeIsControl ch || unicodeIsSpace ch)) :=
    fun hm => h1 (List.mem_of_mem_filter hm)
  have h3 : c ∉ V1.invalidSequences.foldl (fun acc p => replaceAllB acc p [])
      ((V1.dangerousPatterns.foldl (fun acc p => replaceAllB acc p []) s).filter
        (fun ch => !(unicodeIsControl ch || unicodeIsSpace ch))) :=
    fun hm => h2 ((foldl_removeAll_sublist _ _).subset hm)
  have h4 : c ∉ trimLeftB (V1.invalidSequences.foldl (fun acc p => replaceAllB acc p [])
      ((V1.dangerousPatterns.foldl (fun acc p => replaceAllB acc p []) s).filter
        (fun ch => !(unicodeIsControl ch || unicodeIsSpace ch)))) ['.', '-'] :=
    fun hm => h3 (trimLeftB_subset _ _ c hm)
  have h5 : c ∉ trimRightB (trimLeftB (V1.invalidSequences.foldl
      (fun acc p => replaceAllB acc p [])
      ((V1.dangerousPatterns.foldl (fun acc p => replaceAllB acc p []) s).filter
        (fun ch => !(unicodeIsControl ch || unicodeIsSpace ch)))) ['.', '-']) ['.', '/'] :=
    fun hm => h4 (trimRightB_subset _ _ c hm)
  exact sanitize_last_steps_not_mem c hdash _ h5

/-- C10 witness: the amended theorem applied to a concrete ampersand-ridden
input and the semicolon pattern. -/
theorem c10_sanitize_strips_singles_witness :
    cSemi ∉ V1.SanitizeBranchName "a;b;; c".toList :=
  c10_sanitize_strips_singles "a;b;; c".toList cSemi (by decide)

/-- The guarded engine's deletion step always traces exactly the executor's
trace, whatever the outcome. -/
theorem deleteStep_trace_eq (env : GitEnv) (name : Str) (force remote : Bool) :
    (G2.deleteStep env name force remote).2 =
      (G2.execGitT env (deleteArgs name force remote)).2 := by
  unfold G2.deleteStep
  rcases h : G2.execGitT env (deleteArgs name force remote) with ⟨res, t⟩
  cases res <;> rfl

/-- C2 amended: for the deletion engine of git.go 822-866, over any
environment in which the name is valid and unprotected, the branch exists,
and the merged query reports it unmerged: deleting with force=false,
remote=false fails with the typed UnmergedBranch outcome after issuing
exactly the existence probe, the current-branch query and the merged query;
deleting with force=true issues no merge query at all (trace: probe then
deletion command); and deleting remotely issues no merge query for either
force value. The revision at git.go 338-385 lacks this check entirely (see
the counterexample). -/
theorem c2_merge_check_engine (env : GitEnv) (name cur o1 o2 mo : Str)
    (hname : V1.ValidateBranchName name = .ok ())
    (hprot : isProtectedBranch name = false)
    (hex : G2.execGitT env (G2.existenceCmd name false) =
      (.ok o1, [G2.existenceCmd name false]))
    (hexr : G2.execGitT env (G2.existenceCmd name true) =
      (.ok o2, [G2.existenceCmd name true]))
    (hcur : G2.execGitT env revParseHeadCmd = (.ok cur, [revParseHeadCmd]))
    (hmer : G2.execGitT env (mergedCmd cur) = (.ok mo, [mergedCmd cur]))
    (hunm : (G2.mergedLineNames mo).contains name = false)
    (hdel : (G2.execGitT env (deleteArgs name true false)).2 =
      [deleteArgs name true false])
    (hpush : ∀ f : Bool, (G2.execGitT env (deleteArgs name f true)).2 =
      [deleteArgs name f true]) :
    G2.DeleteBranch env name false false =
      (.error (.unmerged name),
        [G2.existenceCmd name false, revParseHeadCmd, mergedCmd cur]) ∧
    (G2.DeleteBranch env name true false).2 =
      [G2.existenceCmd name false, deleteArgs name true false] ∧
    (∀ f : Bool, (G2.DeleteBranch env name f true).2 =
      [G2.existenceCmd name true, deleteArgs name f true]) := by
  have hbe : G2.branchExists env name false = (.ok true, [G2.existenceCmd name false]) := by
    unfold G2.branchExists
    rw [hex]
  have hbr : G2.branchExists env name true = (.ok true, [G2.existenceCmd name true]) := by
    unfold G2.branchExists
    rw [hexr]
  have hmerged : G2.isBranchMerged env name =
      (.ok false, [revParseHeadCmd, mergedCmd cur]) := by
    unfold G2.isBranchMerged
    rw [hcur]
    simp [hmer]
    simpa [List.contains] using hunm
  refine ⟨?_, ?_, ?_⟩
  · simp [G2.DeleteBranch, hname, isErrB, hprot, hbe, hmerged]
  · have htr := deleteStep_trace_eq env name true false
    simp [G2.DeleteBranch, hname, isErrB, hprot, hbe, htr, hdel]
  · intro f
    have htr := deleteStep_trace_eq env name f true
    simp [G2.DeleteBranch, hname, isErrB, hprot, hbr, htr, hpush f]

/-- C2 amended witness: the engine applied to the concrete environment in
which `feat` exists everywhere, the current branch is `main`, and the
merged listing is empty. -/
theorem c2_merge_check_engine_witness :
    G2.DeleteBranch envW "feat".toList false false =
      (.error (.unmerged "feat".toList),
        [G2.existenceCmd "feat".toList false, revParseHeadCmd,
          mergedCmd "main".toList]) ∧
    (G2.DeleteBranch envW "feat".toList true false).2 =
      [G2.existenceCmd "feat".toList false, deleteArgs "feat".toList true false] ∧
    (G2.DeleteBranch envW "feat".toList true true).2 =
      [G2.existenceCmd "feat".toList true, deleteArgs "feat".toList true true] ∧
    (G2.DeleteBranch envW "feat".toList false true).2 =
      [G2.existenceCmd "feat".toList true, deleteArgs "feat".toList false true] := by
  obtain ⟨h1, h2, h3⟩ := c2_merge_check_engine envW "feat".toList "main".toList [] [] []
    (by decide) (by decide) (by decide) (by decide) (by decide) (by decide) (by decide)
    (by decide) (by intro f; cases f <;> decide)
  exact ⟨h1, h2, h3 true, h3 false⟩
